import Mathlib

/-!
Shallow embedding of `src/pictogrid.py` (Python 2).

The module arranges a list of images into a grid: it computes a row count from
the image count and column count, allocates an output canvas, and for each image
resizes it to fit the tile, computes a placement offset, pastes it, and
optionally draws a border rectangle.

Modelling conventions:
* machine integers are `ℤ`; Python 2 integer `/` and `%` are floor division and
  floor modulus, i.e. `Int.fdiv` and `Int.fmod`;
* Python float arithmetic (only used for the resize ratio) is modelled by exact
  rationals `ℚ`, and `int()` on a nonnegative value is the floor;
* an image is its size history: a decoded source raster, or a `resize` result;
* the canvas records its dimensions, fill color, and the sequence of
  paste / draw-rectangle operations performed on it;
* the `ZeroDivisionError` that Python raises at `n / cols` when `cols == 0` is
  an `Except.error`.
-/

namespace Pictogrid

/-- Resampling filters of the image library; the source passes `Image.ANTIALIAS`
to `resize`. -/
inductive Filter
  | antialias
deriving DecidableEq

/-- An image value: a decoded raster with its natural pixel size, or the result
of `resize` applied to an image with a target size and resampling filter. -/
inductive Img
  | source (w h : ℤ)
  | resized (orig : Img) (w h : ℤ) (f : Filter)
deriving DecidableEq

/-- The pixel size `(width, height)` of an image (`img.size` in PIL). -/
def Img.size : Img → ℤ × ℤ
  | .source w h => (w, h)
  | .resized _ w h _ => (w, h)

/-- Python `int()` applied to an exact rational: truncation toward zero. -/
def pyInt (q : ℚ) : ℤ := if 0 ≤ q then ⌊q⌋ else ⌈q⌉

/-- Python truthiness of the `border` argument: `None` and the empty string are
falsy, any other string is truthy. -/
def pyTruthy : Option String → Bool
  | none => false
  | some s => s ≠ ""

/-- `open_and_size` (src/pictogrid.py lines 89-110): return the image unchanged
when its size is already exactly `(tw, th)`; otherwise resize it to
`(int(w * ratio), int(h * ratio))` where `ratio = min(tw / float(w), th / float(h))`,
with the antialias filter. (Opening a path is outside the model: images arrive
decoded.) -/
def openAndSize (img : Img) (tw th : ℤ) : Img :=
  if img.size = (tw, th) then img
  else
    let w := img.size.1
    let h := img.size.2
    let ratio : ℚ := min ((tw : ℚ) / (w : ℚ)) ((th : ℚ) / (h : ℚ))
    .resized img (pyInt ((w : ℚ) * ratio)) (pyInt ((h : ℚ) * ratio)) .antialias

/-- `make_offset` (src/pictogrid.py lines 73-87): the tile anchor
`(tw*col + padding*(col+1), th*row + padding*(row+1))` plus the centering offset
`((tw - w) / 2, (th - h) / 2)` computed with Python 2 floor division. -/
def makeOffset (img : Img) (col row tw th padding : ℤ) : ℤ × ℤ :=
  let x := tw * col + padding * (col + 1)
  let y := th * row + padding * (row + 1)
  let w := img.size.1
  let h := img.size.2
  let dx := (tw - w).fdiv 2
  let dy := (th - h).fdiv 2
  (x + dx, y + dy)

/-- A pixel box `(x1, y1, x2, y2)` as passed to `draw.rectangle`. -/
structure Box where
  x1 : ℤ
  y1 : ℤ
  x2 : ℤ
  y2 : ℤ
deriving DecidableEq

/-- One `result.paste(img, offset)` call recorded on the canvas. -/
structure PasteOp where
  img : Img
  pos : ℤ × ℤ
deriving DecidableEq

/-- One `draw.rectangle(box, outline=border)` call recorded on the canvas. -/
structure RectOp where
  box : Box
  outline : String
deriving DecidableEq

/-- The composed output: the dimensions and fill color given to `Image.new`,
plus, for each input image in order, the paste operation and the optional
border-rectangle operation of that loop iteration. -/
structure Canvas where
  width : ℤ
  height : ℤ
  background : String
  ops : List (PasteOp × Option RectOp)
deriving DecidableEq

/-- The paste operations performed on the canvas, in order. -/
def Canvas.pastes (c : Canvas) : List PasteOp := c.ops.map Prod.fst

/-- The border rectangles drawn on the canvas, in order. -/
def Canvas.rects (c : Canvas) : List RectOp := c.ops.filterMap Prod.snd

/-- Failures of `pictogrid`. The source raises Python's `ZeroDivisionError` at
line 43 when `cols = 0`. `configError` is the `ConfigError` named by the design
spec; the source defines no such class, and the constructor exists only so that
spec-level statements about it can be expressed. -/
inductive PgError
  | zeroDivisionError
  | configError
deriving DecidableEq

/-- One iteration of the loop (src/pictogrid.py lines 52-66) at index `i`:
`col = i % cols`, `row = i / cols` in Python 2 semantics, resize via
`open_and_size`, offset via `make_offset`, paste at the offset, and, when
`border` is truthy, draw the rectangle `(x1, y1, x1 + tw, y1 + th)` whose corner
is the paste offset (line 64 reads the offset, not the tile anchor). -/
def processTile (cols tw th padding : ℤ) (border : Option String) (i : ℕ)
    (src : Img) : PasteOp × Option RectOp :=
  let col := ((i : ℤ)).fmod cols
  let row := ((i : ℤ)).fdiv cols
  let img := openAndSize src tw th
  let off := makeOffset img col row tw th padding
  (⟨img, off⟩,
    if pyTruthy border then
      some ⟨⟨off.1, off.2, off.1 + tw, off.2 + th⟩, border.getD ""⟩
    else none)

/-- Row count (src/pictogrid.py line 43): `rows = (n / cols) + min(1, n % cols)`
with Python 2 floor division and floor modulus. -/
def pgRows (n cols : ℤ) : ℤ := n.fdiv cols + min 1 (n.fmod cols)

/-- `pictogrid` (src/pictogrid.py lines 23-71). When `cols = 0` Python raises
`ZeroDivisionError` at the `rows` computation, before any image is touched.
Otherwise the canvas is `(tw+padding)*cols + padding` by
`(th+padding)*rows + padding`, filled with `background`, and each image is
processed in input order. Saving to `outpath` is outside the model. -/
def pictogrid (images : List Img) (cols tw th padding : ℤ)
    (background : String) (border : Option String) : Except PgError Canvas :=
  if cols = 0 then .error .zeroDivisionError
  else
    let n : ℤ := images.length
    let rows := pgRows n cols
    .ok { width := (tw + padding) * cols + padding
          height := (th + padding) * rows + padding
          background := background
          ops := images.enum.map fun e => processTile cols tw th padding border e.1 e.2 }

/-- The tile region reserved for index `i`: the anchor of make_offset lines
79-80, with `col = i % cols` and `row = i / cols` as in lines 53-54, extended by
the tile dimensions. -/
def tileBox (cols tw th padding : ℤ) (i : ℕ) : Box :=
  let col := ((i : ℤ)).fmod cols
  let row := ((i : ℤ)).fdiv cols
  let x := tw * col + padding * (col + 1)
  let y := th * row + padding * (row + 1)
  ⟨x, y, x + tw, y + th⟩

/-- Two pixel boxes, half-open in each axis, do not overlap. -/
def Box.Disjoint (a b : Box) : Prop :=
  a.x2 ≤ b.x1 ∨ b.x2 ≤ a.x1 ∨ a.y2 ≤ b.y1 ∨ b.y2 ≤ a.y1

/-! ### Helper lemmas -/

/-- Python `int()` of a nonnegative rational is the floor. -/
theorem pyInt_of_nonneg {q : ℚ} (h : 0 ≤ q) : pyInt q = ⌊q⌋ := if_pos h

/-- Python `int()` is monotone below an integer bound. -/
theorem pyInt_le {q : ℚ} {z : ℤ} (h : q ≤ (z : ℚ)) : pyInt q ≤ z := by
  unfold pyInt
  split
  · calc ⌊q⌋ ≤ ⌊(z : ℚ)⌋ := Int.floor_le_floor h
      _ = z := Int.floor_intCast z
  · exact Int.ceil_le.mpr h

/-- Python `int()` of a nonnegative rational is nonnegative. -/
theorem pyInt_nonneg {q : ℚ} (h : 0 ≤ q) : 0 ≤ pyInt q := by
  rw [pyInt_of_nonneg h]
  exact Int.le_floor.mpr (by exact_mod_cast h)

/-- Python 2 floor division by 2 is the rational floor of the halved value. -/
theorem fdiv_two_eq_floor (a : ℤ) : a.fdiv 2 = ⌊(a : ℚ) / 2⌋ := by
  rw [Int.fdiv_eq_ediv _ (by norm_num),
    show ((2 : ℚ)) = ((2 : ℕ) : ℚ) by norm_num, Rat.floor_intCast_div_natCast]
  norm_num

/-- The centering delta `(tw - w) / 2` (floor division) of a fitting image is
nonnegative and keeps the image inside the tile extent. -/
theorem centering_bounds {w tw : ℤ} (h0 : 0 ≤ w) (h1 : w ≤ tw) :
    0 ≤ (tw - w).fdiv 2 ∧ (tw - w).fdiv 2 + w ≤ tw := by
  rw [Int.fdiv_eq_ediv _ (by norm_num)]
  omega

/-- `open_and_size` always produces a size that fits in the tile box and is
nonnegative, provided the natural size is positive and the tile size is
nonnegative. -/
theorem openAndSize_size_le (img : Img) (tw th : ℤ)
    (hw : 1 ≤ img.size.1) (hh : 1 ≤ img.size.2) (htw : 0 ≤ tw) (hth : 0 ≤ th) :
    (openAndSize img tw th).size.1 ≤ tw ∧ (openAndSize img tw th).size.2 ≤ th ∧
    0 ≤ (openAndSize img tw th).size.1 ∧ 0 ≤ (openAndSize img tw th).size.2 := by
  unfold openAndSize
  split
  · rename_i hsz
    rw [hsz]
    exact ⟨le_refl tw, le_refl th, htw, hth⟩
  · simp only [Img.size]
    have hw0 : (0 : ℚ) < (img.size.1 : ℚ) := by exact_mod_cast lt_of_lt_of_le one_pos hw
    have hh0 : (0 : ℚ) < (img.size.2 : ℚ) := by exact_mod_cast lt_of_lt_of_le one_pos hh
    have htw0 : (0 : ℚ) ≤ (tw : ℚ) := by exact_mod_cast htw
    have hth0 : (0 : ℚ) ≤ (th : ℚ) := by exact_mod_cast hth
    have hrat : 0 ≤ min ((tw : ℚ) / (img.size.1 : ℚ)) ((th : ℚ) / (img.size.2 : ℚ)) :=
      le_min (div_nonneg htw0 (le_of_lt hw0)) (div_nonneg hth0 (le_of_lt hh0))
    have hbw : (img.size.1 : ℚ) * min ((tw : ℚ) / (img.size.1 : ℚ)) ((th : ℚ) / (img.size.2 : ℚ))
        ≤ (tw : ℚ) := by
      calc (img.size.1 : ℚ) * min ((tw : ℚ) / (img.size.1 : ℚ)) ((th : ℚ) / (img.size.2 : ℚ))
          ≤ (img.size.1 : ℚ) * ((tw : ℚ) / (img.size.1 : ℚ)) :=
            mul_le_mul_of_nonneg_left (min_le_left _ _) (le_of_lt hw0)
        _ = (tw : ℚ) := mul_div_cancel₀ _ (ne_of_gt hw0)
    have hbh : (img.size.2 : ℚ) * min ((tw : ℚ) / (img.size.1 : ℚ)) ((th : ℚ) / (img.size.2 : ℚ))
        ≤ (th : ℚ) := by
      calc (img.size.2 : ℚ) * min ((tw : ℚ) / (img.size.1 : ℚ)) ((th : ℚ) / (img.size.2 : ℚ))
          ≤ (img.size.2 : ℚ) * ((th : ℚ) / (img.size.2 : ℚ)) :=
            mul_le_mul_of_nonneg_left (min_le_right _ _) (le_of_lt hh0)
        _ = (th : ℚ) := mul_div_cancel₀ _ (ne_of_gt hh0)
    exact ⟨pyInt_le hbw, pyInt_le hbh,
      pyInt_nonneg (mul_nonneg (le_of_lt hw0) hrat),
      pyInt_nonneg (mul_nonneg (le_of_lt hh0) hrat)⟩

/-- When `cols` is nonzero, `pictogrid` returns the fully determined canvas. -/
theorem pictogrid_ok (images : List Img) (cols tw th padding : ℤ) (bg : String)
    (b : Option String) (hc : cols ≠ 0) :
    pictogrid images cols tw th padding bg b =
      .ok { width := (tw + padding) * cols + padding
            height := (th + padding) * pgRows images.length cols + padding
            background := bg
            ops := images.enum.map fun e => processTile cols tw th padding b e.1 e.2 } := by
  unfold pictogrid
  rw [if_neg hc]

/-- Indexing the mapped enumeration of the image list. -/
theorem enum_map_getElem {β : Type} (images : List Img) (f : ℕ × Img → β) (i : ℕ)
    (hi : i < images.length) :
    (images.enum.map f)[i]? = some (f (i, images.get ⟨i, hi⟩)) := by
  rw [List.getElem?_map, List.getElem?_enum, List.getElem?_eq_getElem hi]
  rfl

/-- `filterMap` of an everywhere-`some` function is a `map`. -/
theorem filterMap_some_eq_map {α β : Type} (g : α → β) :
    ∀ l : List α, l.filterMap (fun a => some (g a)) = l.map g
  | [] => rfl
  | a :: l => by
    rw [List.filterMap_cons, List.map_cons]
    exact congrArg _ (filterMap_some_eq_map g l)

/-- The source's row count `(n / cols) + min(1, n % cols)` is the ceiling of
`n / cols` for a nonnegative count and positive column count. -/
theorem pgRows_eq_ceil (n cols : ℤ) (hn : 0 ≤ n) (hc : 1 ≤ cols) :
    pgRows n cols = ⌈(n : ℚ) / (cols : ℚ)⌉ := by
  unfold pgRows
  rw [Int.fdiv_eq_ediv _ (by omega), Int.fmod_eq_emod _ (by omega)]
  have hc0 : (0 : ℚ) < (cols : ℚ) := by exact_mod_cast lt_of_lt_of_le one_pos hc
  have hmain2 : n % cols + n / cols * cols = n := by
    have hmain := Int.ediv_add_emod n cols
    linarith [mul_comm cols (n / cols)]
  have hkey : (n : ℚ) / (cols : ℚ) = ((n % cols : ℤ) : ℚ) / (cols : ℚ) + ((n / cols : ℤ) : ℚ) := by
    field_simp
    exact_mod_cast hmain2.symm
  rw [hkey, Int.ceil_add_int]
  have hr0 : 0 ≤ n % cols := Int.emod_nonneg n (by omega)
  have hrlt : n % cols < cols := Int.emod_lt_of_pos n (by omega)
  rcases eq_or_lt_of_le hr0 with h | h
  · rw [← h]
    norm_num
  · have hceil : ⌈((n % cols : ℤ) : ℚ) / (cols : ℚ)⌉ = 1 := by
      rw [Int.ceil_eq_iff]
      constructor
      · push_cast
        norm_num
        exact div_pos (by exact_mod_cast h) hc0
      · push_cast
        rw [div_le_one hc0]
        exact_mod_cast le_of_lt hrlt
    rw [hceil]
    have : min 1 (n % cols) = 1 := min_eq_left (by omega)
    omega

/-- Unfolded form of `makeOffset`. -/
theorem makeOffset_eq (img : Img) (col row tw th padding : ℤ) :
    makeOffset img col row tw th padding =
      (tw * col + padding * (col + 1) + (tw - img.size.1).fdiv 2,
       th * row + padding * (row + 1) + (th - img.size.2).fdiv 2) := rfl

/-- Unfolded form of `processTile`. -/
theorem processTile_eq (cols tw th padding : ℤ) (b : Option String) (i : ℕ) (src : Img) :
    processTile cols tw th padding b i src =
      (⟨openAndSize src tw th,
        makeOffset (openAndSize src tw th) (((i : ℤ)).fmod cols) (((i : ℤ)).fdiv cols)
          tw th padding⟩,
       if pyTruthy b then
         some ⟨⟨(makeOffset (openAndSize src tw th) (((i : ℤ)).fmod cols) (((i : ℤ)).fdiv cols)
                   tw th padding).1,
                (makeOffset (openAndSize src tw th) (((i : ℤ)).fmod cols) (((i : ℤ)).fdiv cols)
                   tw th padding).2,
                (makeOffset (openAndSize src tw th) (((i : ℤ)).fmod cols) (((i : ℤ)).fdiv cols)
                   tw th padding).1 + tw,
                (makeOffset (openAndSize src tw th) (((i : ℤ)).fmod cols) (((i : ℤ)).fdiv cols)
                   tw th padding).2 + th⟩, b.getD ""⟩
       else none) := rfl

/-- Unfolded form of `tileBox`. -/
theorem tileBox_eq (cols tw th padding : ℤ) (i : ℕ) :
    tileBox cols tw th padding i =
      ⟨tw * (((i : ℤ)).fmod cols) + padding * ((((i : ℤ)).fmod cols) + 1),
       th * (((i : ℤ)).fdiv cols) + padding * ((((i : ℤ)).fdiv cols) + 1),
       tw * (((i : ℤ)).fmod cols) + padding * ((((i : ℤ)).fmod cols) + 1) + tw,
       th * (((i : ℤ)).fdiv cols) + padding * ((((i : ℤ)).fdiv cols) + 1) + th⟩ := rfl

/-- Tile regions of distinct indices never overlap. -/
theorem tileBox_disjoint (cols tw th padding : ℤ) (hc : 1 ≤ cols) (htw : 1 ≤ tw)
    (hth : 1 ≤ th) (hp : 0 ≤ padding) (i j : ℕ) (hij : i ≠ j) :
    Box.Disjoint (tileBox cols tw th padding i) (tileBox cols tw th padding j) := by
  have hc0 : (0 : ℤ) ≤ cols := by omega
  rw [tileBox_eq, tileBox_eq]
  simp only [Box.Disjoint, Int.fmod_eq_emod _ hc0, Int.fdiv_eq_ediv _ hc0]
  have keyx : ∀ a b : ℤ, a < b →
      tw * a + padding * (a + 1) + tw ≤ tw * b + padding * (b + 1) := by
    intro a b hab
    have h1 := mul_le_mul_of_nonneg_left (show a + 1 ≤ b by omega) (show (0 : ℤ) ≤ tw by omega)
    have h2 := mul_le_mul_of_nonneg_left (show a + 1 ≤ b + 1 by omega) hp
    linarith
  have keyy : ∀ a b : ℤ, a < b →
      th * a + padding * (a + 1) + th ≤ th * b + padding * (b + 1) := by
    intro a b hab
    have h1 := mul_le_mul_of_nonneg_left (show a + 1 ≤ b by omega) (show (0 : ℤ) ≤ th by omega)
    have h2 := mul_le_mul_of_nonneg_left (show a + 1 ≤ b + 1 by omega) hp
    linarith
  rcases lt_trichotomy ((i : ℤ) % cols) ((j : ℤ) % cols) with hlt | heq | hgt
  · exact Or.inl (keyx _ _ hlt)
  · have hrow : (i : ℤ) / cols ≠ (j : ℤ) / cols := by
      intro hreq
      apply hij
      have hint : (i : ℤ) = (j : ℤ) := by
        have e1 := Int.ediv_add_emod (i : ℤ) cols
        have e2 := Int.ediv_add_emod (j : ℤ) cols
        rw [← e1, ← e2, heq, hreq]
      exact_mod_cast hint
    rcases lt_or_gt_of_ne hrow with h | h
    · exact Or.inr (Or.inr (Or.inl (keyy _ _ h)))
    · exact Or.inr (Or.inr (Or.inr (keyy _ _ h)))
  · exact Or.inr (Or.inl (keyx _ _ hgt))

/-! ### Claims -/

/-- Claim C1: for every call with `n ≥ 1` images and `cols ≥ 1`, the row count
equals `ceil(n / cols)` and the canvas is exactly `(tile_width+padding)*cols + padding`
wide and `(tile_height+padding)*rows + padding` tall. -/
theorem c1_rows_and_canvas_size (images : List Img) (cols tw th padding : ℤ)
    (bg : String) (b : Option String) (hn : 1 ≤ images.length) (hc : 1 ≤ cols) :
    ∃ c, pictogrid images cols tw th padding bg b = .ok c ∧
      pgRows images.length cols = ⌈((images.length : ℤ) : ℚ) / (cols : ℚ)⌉ ∧
      c.width = (tw + padding) * cols + padding ∧
      c.height = (th + padding) * ⌈((images.length : ℤ) : ℚ) / (cols : ℚ)⌉ + padding := by
  have hrows := pgRows_eq_ceil images.length cols (by positivity) hc
  refine ⟨_, pictogrid_ok images cols tw th padding bg b (by omega), hrows, rfl, ?_⟩
  rw [← hrows]

/-- Witness for C1 at the spec scenario: 5 images, 3 columns, 100x100 tiles,
padding 10 give a 2-row grid on a 340x230 canvas. -/
theorem c1_rows_and_canvas_size_witness :
    ∃ c, pictogrid
        [Img.source 100 100, Img.source 100 100, Img.source 100 100,
         Img.source 100 100, Img.source 100 100] 3 100 100 10 "white" none = .ok c ∧
      pgRows (List.length
        [Img.source 100 100, Img.source 100 100, Img.source 100 100,
         Img.source 100 100, Img.source 100 100]) 3 =
        ⌈((List.length
        [Img.source 100 100, Img.source 100 100, Img.source 100 100,
         Img.source 100 100, Img.source 100 100] : ℤ) : ℚ) / ((3 : ℤ) : ℚ)⌉ ∧
      c.width = (100 + 10) * 3 + 10 ∧
      c.height = (100 + 10) * ⌈((List.length
        [Img.source 100 100, Img.source 100 100, Img.source 100 100,
         Img.source 100 100, Img.source 100 100] : ℤ) : ℚ) / ((3 : ℤ) : ℚ)⌉ + 10 :=
  c1_rows_and_canvas_size
    [Img.source 100 100, Img.source 100 100, Img.source 100 100,
     Img.source 100 100, Img.source 100 100] 3 100 100 10 "white" none
    (by decide) (by norm_num)

/-- Claim C5, counterexample: calling with `cols = 0` fails with Python's
`ZeroDivisionError` from the `rows` computation, not with a `ConfigError`
(the source defines no such class). -/
theorem c5_counterexample :
    pictogrid [Img.source 50 200] 0 100 100 10 "white" none = .error .zeroDivisionError ∧
    PgError.zeroDivisionError ≠ PgError.configError := by
  constructor
  · rfl
  · decide

/-- Claim C5 as amended: for every call with `cols = 0` the operation fails,
before any image is loaded or processed, with `ZeroDivisionError` (raised by
`n / cols` at line 43) rather than `ConfigError`. -/
theorem c5_zero_cols_fails_before_processing (images : List Img) (tw th padding : ℤ)
    (bg : String) (b : Option String) :
    pictogrid images 0 tw th padding bg b = .error .zeroDivisionError := by
  simp [pictogrid]

/-- Claim C8, counterexample: the empty image list neither raises nor yields a
`(padding, padding)` canvas: with `cols = 3`, 100x100 tiles and padding 10 the
result is a `340 x 10` canvas. -/
theorem c8_counterexample :
    pictogrid [] 3 100 100 10 "white" none =
      .ok { width := 340, height := 10, background := "white", ops := [] } ∧
    (340 : ℤ) ≠ 10 := by
  constructor
  · rfl
  · decide

/-- Claim C8 as amended: for the empty image list (and `cols ≠ 0`) no error is
raised; the result is a zero-tile canvas filled with the background whose width
is still `(tile_width+padding)*cols + padding` and whose height is `padding`
(`rows = 0`). -/
theorem c8_empty_list_canvas (cols tw th padding : ℤ) (bg : String)
    (b : Option String) (hc : cols ≠ 0) :
    pictogrid [] cols tw th padding bg b =
      .ok { width := (tw + padding) * cols + padding, height := padding,
            background := bg, ops := [] } := by
  rw [pictogrid_ok [] cols tw th padding bg b hc]
  simp [pgRows, Int.zero_fdiv, Int.zero_fmod]

/-- Witness for the amended C8 at `cols = 3`, 100x100 tiles, padding 10. -/
theorem c8_empty_list_canvas_witness :
    pictogrid [] 3 100 100 10 "white" none =
      .ok { width := (100 + 10) * 3 + 10, height := 10,
            background := "white", ops := [] } :=
  c8_empty_list_canvas 3 100 100 10 "white" none (by decide)

/-- Claim C3: an image whose size differs from the tile size is resized to
`(floor(w*ratio), floor(h*ratio))` with `ratio = min(tile_width/w, tile_height/h)`
using the antialiasing filter, and an image already of tile size is passed
through unchanged with no resize. -/
theorem c3_resize_aspect_fit (img : Img) (tw th : ℤ)
    (hw : 1 ≤ img.size.1) (hh : 1 ≤ img.size.2) (htw : 1 ≤ tw) (hth : 1 ≤ th) :
    (img.size ≠ (tw, th) →
      openAndSize img tw th =
        .resized img
          (⌊(img.size.1 : ℚ) *
            min ((tw : ℚ) / (img.size.1 : ℚ)) ((th : ℚ) / (img.size.2 : ℚ))⌋)
          (⌊(img.size.2 : ℚ) *
            min ((tw : ℚ) / (img.size.1 : ℚ)) ((th : ℚ) / (img.size.2 : ℚ))⌋)
          .antialias) ∧
    (img.size = (tw, th) → openAndSize img tw th = img) := by
  constructor
  · intro hne
    unfold openAndSize
    rw [if_neg hne]
    show Img.resized img
        (pyInt ((img.size.1 : ℚ) *
          min ((tw : ℚ) / (img.size.1 : ℚ)) ((th : ℚ) / (img.size.2 : ℚ))))
        (pyInt ((img.size.2 : ℚ) *
          min ((tw : ℚ) / (img.size.1 : ℚ)) ((th : ℚ) / (img.size.2 : ℚ))))
        Filter.antialias = _
    have hw0 : (0 : ℚ) < (img.size.1 : ℚ) := by exact_mod_cast lt_of_lt_of_le one_pos hw
    have hh0 : (0 : ℚ) < (img.size.2 : ℚ) := by exact_mod_cast lt_of_lt_of_le one_pos hh
    have hrat : 0 ≤ min ((tw : ℚ) / (img.size.1 : ℚ)) ((th : ℚ) / (img.size.2 : ℚ)) :=
      le_min (div_nonneg (by exact_mod_cast (by omega : (0 : ℤ) ≤ tw)) (le_of_lt hw0))
        (div_nonneg (by exact_mod_cast (by omega : (0 : ℤ) ≤ th)) (le_of_lt hh0))
    rw [pyInt_of_nonneg (mul_nonneg (le_of_lt hw0) hrat),
      pyInt_of_nonneg (mul_nonneg (le_of_lt hh0) hrat)]
  · intro heq
    unfold openAndSize
    rw [if_pos heq]

/-- Witness for C3 at the spec scenario: 50x200 into a 100x100 tile gives
ratio 1/2, hence 25x100; a 100x100 image is passed through untouched. -/
theorem c3_resize_aspect_fit_witness :
    openAndSize (Img.source 50 200) 100 100 =
      .resized (Img.source 50 200) 25 100 .antialias ∧
    openAndSize (Img.source 100 100) 100 100 = Img.source 100 100 := by
  constructor
  · have h := (c3_resize_aspect_fit (Img.source 50 200) 100 100 (by decide) (by decide)
      (by decide) (by decide)).1 (by decide)
    rw [h]
    norm_num [Img.size, min_def]
  · exact (c3_resize_aspect_fit (Img.source 100 100) 100 100 (by decide) (by decide)
      (by decide) (by decide)).2 rfl

/-- Claim C6, counterexample: a 50x50 image in a 100x100 tile is resized to
100x100, strictly larger than its natural size, so the resize step does scale
up. -/
theorem c6_counterexample :
    openAndSize (Img.source 50 50) 100 100 =
      .resized (Img.source 50 50) 100 100 .antialias ∧
    ¬ ((Img.resized (Img.source 50 50) 100 100 .antialias).size.1 ≤
          (Img.source 50 50).size.1 ∧
       (Img.resized (Img.source 50 50) 100 100 .antialias).size.2 ≤
          (Img.source 50 50).size.2) := by
  constructor
  · norm_num [openAndSize, pyInt, Img.size, min_def, Prod.mk.injEq]
  · decide

/-- Claim C6 as amended: the resize step scales to fit within the tile bounds,
`resized_w ≤ tile_width` and `resized_h ≤ tile_height`; it may scale up as well
as down, since `ratio = min(tile_width/w, tile_height/h)` can exceed 1. -/
theorem c6_resize_fits_within_tile (img : Img) (tw th : ℤ)
    (hw : 1 ≤ img.size.1) (hh : 1 ≤ img.size.2) (htw : 0 ≤ tw) (hth : 0 ≤ th) :
    (openAndSize img tw th).size.1 ≤ tw ∧ (openAndSize img tw th).size.2 ≤ th :=
  ⟨(openAndSize_size_le img tw th hw hh htw hth).1,
   (openAndSize_size_le img tw th hw hh htw hth).2.1⟩

/-- Witness for the amended C6 at a 50x50 image and a 100x100 tile. -/
theorem c6_resize_fits_within_tile_witness :
    (openAndSize (Img.source 50 50) 100 100).size.1 ≤ 100 ∧
    (openAndSize (Img.source 50 50) 100 100).size.2 ≤ 100 :=
  c6_resize_fits_within_tile (Img.source 50 50) 100 100 (by decide) (by decide)
    (by decide) (by decide)

/-- Claim C10: canvas dimensions depend only on the image count and the grid
parameters, never on the images themselves (their sizes or contents), nor on
the background or border arguments. -/
theorem c10_canvas_size_content_independent (imgs1 imgs2 : List Img)
    (cols tw th padding : ℤ) (bg1 bg2 : String) (b1 b2 : Option String)
    (hlen : imgs1.length = imgs2.length) :
    (pictogrid imgs1 cols tw th padding bg1 b1).map Canvas.width =
      (pictogrid imgs2 cols tw th padding bg2 b2).map Canvas.width ∧
    (pictogrid imgs1 cols tw th padding bg1 b1).map Canvas.height =
      (pictogrid imgs2 cols tw th padding bg2 b2).map Canvas.height := by
  by_cases hc : cols = 0
  · subst hc
    constructor <;> simp [pictogrid]
  · rw [pictogrid_ok imgs1 cols tw th padding bg1 b1 hc,
      pictogrid_ok imgs2 cols tw th padding bg2 b2 hc]
    constructor <;> simp [Except.map, hlen]

/-- Witness for C10: two single-image lists with different image sizes yield
the same canvas dimensions. -/
theorem c10_canvas_size_content_independent_witness :
    (pictogrid [Img.source 50 200] 3 100 100 10 "white" (some "red")).map Canvas.width =
      (pictogrid [Img.source 7 9] 3 100 100 10 "black" none).map Canvas.width ∧
    (pictogrid [Img.source 50 200] 3 100 100 10 "white" (some "red")).map Canvas.height =
      (pictogrid [Img.source 7 9] 3 100 100 10 "black" none).map Canvas.height :=
  c10_canvas_size_content_independent [Img.source 50 200] [Img.source 7 9]
    3 100 100 10 "white" "black" (some "red") none (by decide)

/-- Claim C4: image `i` is pasted at `(x+dx, y+dy)` with tile anchor
`x = tile_width*col + padding*(col+1)`, `y = tile_height*row + padding*(row+1)`
for `col = i mod cols`, `row = i div cols`, and centering offsets
`dx = floor((tile_width - resized_w)/2)`, `dy = floor((tile_height - resized_h)/2)`
with floor (not round) semantics. -/
theorem c4_paste_position (images : List Img) (cols tw th padding : ℤ)
    (bg : String) (b : Option String) (hc : 1 ≤ cols) (i : ℕ)
    (hi : i < images.length) :
    ∃ c, pictogrid images cols tw th padding bg b = .ok c ∧
      c.pastes[i]? = some
        { img := openAndSize (images.get ⟨i, hi⟩) tw th
          pos :=
            (tw * ((i : ℤ) % cols) + padding * ((i : ℤ) % cols + 1) +
               ⌊((tw - (openAndSize (images.get ⟨i, hi⟩) tw th).size.1 : ℤ) : ℚ) / 2⌋,
             th * ((i : ℤ) / cols) + padding * ((i : ℤ) / cols + 1) +
               ⌊((th - (openAndSize (images.get ⟨i, hi⟩) tw th).size.2 : ℤ) : ℚ) / 2⌋) } := by
  have hc0 : (0 : ℤ) ≤ cols := by omega
  refine ⟨_, pictogrid_ok images cols tw th padding bg b (by omega), ?_⟩
  simp only [Canvas.pastes]
  rw [List.map_map, enum_map_getElem images _ i hi]
  simp only [Function.comp_apply, processTile_eq, makeOffset_eq,
    Int.fmod_eq_emod _ hc0, Int.fdiv_eq_ediv _ hc0, fdiv_two_eq_floor]

/-- Witness for C4: second image (index 1) of a one-column grid, a 50x200
image centered as 25x100 in the 100x100 tile at row 1 with padding 10. -/
theorem c4_paste_position_witness :
    ∃ c, pictogrid [Img.source 100 100, Img.source 50 200] 1 100 100 10 "white" none
        = .ok c ∧
      c.pastes[1]? = some
        { img := openAndSize (List.get [Img.source 100 100, Img.source 50 200]
            ⟨1, by decide⟩) 100 100
          pos :=
            (100 * ((1 : ℤ) % 1) + 10 * ((1 : ℤ) % 1 + 1) +
               ⌊((100 - (openAndSize (List.get [Img.source 100 100, Img.source 50 200]
                   ⟨1, by decide⟩) 100 100).size.1 : ℤ) : ℚ) / 2⌋,
             100 * ((1 : ℤ) / 1) + 10 * ((1 : ℤ) / 1 + 1) +
               ⌊((100 - (openAndSize (List.get [Img.source 100 100, Img.source 50 200]
                   ⟨1, by decide⟩) 100 100).size.2 : ℤ) : ℚ) / 2⌋) } :=
  c4_paste_position [Img.source 100 100, Img.source 50 200] 1 100 100 10 "white" none
    (by norm_num) 1 (by decide)

/-- Claim C7: tiles are assigned row-major in input order (the `i`-th paste is
the `i`-th input image, at `col = i mod cols`, `row = i div cols`, with no
sorting), and the tile bounding boxes of any two distinct indices are
disjoint. -/
theorem c7_row_major_layout_tiles_disjoint (images : List Img)
    (cols tw th padding : ℤ) (bg : String) (b : Option String)
    (hn : 1 ≤ images.length) (hc : 1 ≤ cols) (htw : 1 ≤ tw) (hth : 1 ≤ th)
    (hp : 0 ≤ padding) :
    ∃ c, pictogrid images cols tw th padding bg b = .ok c ∧
      (∀ i : ℕ, ∀ hi : i < images.length,
        c.pastes[i]? =
          some (processTile cols tw th padding b i (images.get ⟨i, hi⟩)).1) ∧
      ∀ i j : ℕ, i ≠ j →
        Box.Disjoint (tileBox cols tw th padding i) (tileBox cols tw th padding j) := by
  refine ⟨_, pictogrid_ok images cols tw th padding bg b (by omega), ?_, ?_⟩
  · intro i hi
    simp only [Canvas.pastes]
    rw [List.map_map, enum_map_getElem images _ i hi]
    rfl
  · intro i j hij
    exact tileBox_disjoint cols tw th padding hc htw hth hp i j hij

/-- Witness for C7: a single 100x100 image in a one-column grid without
padding. -/
theorem c7_row_major_layout_tiles_disjoint_witness :
    ∃ c, pictogrid [Img.source 100 100] 1 100 100 0 "white" none = .ok c ∧
      (∀ i : ℕ, ∀ hi : i < List.length [Img.source 100 100],
        c.pastes[i]? =
          some (processTile 1 100 100 0 none i
            (List.get [Img.source 100 100] ⟨i, hi⟩)).1) ∧
      ∀ i j : ℕ, i ≠ j →
        Box.Disjoint (tileBox 1 100 100 0 i) (tileBox 1 100 100 0 j) :=
  c7_row_major_layout_tiles_disjoint [Img.source 100 100] 1 100 100 0 "white" none
    (by decide) (by norm_num) (by norm_num) (by norm_num) (by norm_num)

/-- Claim C9: every processed image fits its tile: the (possibly resized)
dimensions never exceed the tile dimensions, the centering offsets are
nonnegative, and the pasted image lies entirely within the tile's bounding
box. -/
theorem c9_paste_within_tile (images : List Img) (cols tw th padding : ℤ)
    (bg : String) (b : Option String) (hc : 1 ≤ cols) (htw : 1 ≤ tw)
    (hth : 1 ≤ th)
    (hsz : ∀ img ∈ images, 1 ≤ img.size.1 ∧ 1 ≤ img.size.2)
    (i : ℕ) (hi : i < images.length) :
    ∃ c, pictogrid images cols tw th padding bg b = .ok c ∧
      ∃ p, c.pastes[i]? = some p ∧
        p.img.size.1 ≤ tw ∧ p.img.size.2 ≤ th ∧
        0 ≤ (tw - p.img.size.1).fdiv 2 ∧ 0 ≤ (th - p.img.size.2).fdiv 2 ∧
        (tileBox cols tw th padding i).x1 ≤ p.pos.1 ∧
        p.pos.1 + p.img.size.1 ≤ (tileBox cols tw th padding i).x2 ∧
        (tileBox cols tw th padding i).y1 ≤ p.pos.2 ∧
        p.pos.2 + p.img.size.2 ≤ (tileBox cols tw th padding i).y2 := by
  refine ⟨_, pictogrid_ok images cols tw th padding bg b (by omega), ?_⟩
  refine ⟨(processTile cols tw th padding b i (images.get ⟨i, hi⟩)).1, ?_, ?_⟩
  · simp only [Canvas.pastes]
    rw [List.map_map, enum_map_getElem images _ i hi]
    rfl
  · obtain ⟨hw, hh⟩ := hsz (images.get ⟨i, hi⟩) (List.get_mem images i hi)
    obtain ⟨hfw, hfh, hnw, hnh⟩ :=
      openAndSize_size_le (images.get ⟨i, hi⟩) tw th hw hh (by omega) (by omega)
    obtain ⟨hdx0, hdxw⟩ := centering_bounds hnw hfw
    obtain ⟨hdy0, hdyh⟩ := centering_bounds hnh hfh
    rw [processTile_eq]
    simp only [makeOffset_eq, tileBox_eq]
    exact ⟨hfw, hfh, hdx0, hdy0, by linarith, by linarith, by linarith, by linarith⟩

/-- Witness for C9: a 50x200 image (resized to 25x100, centered with dx = 37)
in a 3-column grid with 100x100 tiles and padding 10. -/
theorem c9_paste_within_tile_witness :
    ∃ c, pictogrid [Img.source 50 200] 3 100 100 10 "white" none = .ok c ∧
      ∃ p, c.pastes[0]? = some p ∧
        p.img.size.1 ≤ 100 ∧ p.img.size.2 ≤ 100 ∧
        0 ≤ (100 - p.img.size.1).fdiv 2 ∧ 0 ≤ (100 - p.img.size.2).fdiv 2 ∧
        (tileBox 3 100 100 10 0).x1 ≤ p.pos.1 ∧
        p.pos.1 + p.img.size.1 ≤ (tileBox 3 100 100 10 0).x2 ∧
        (tileBox 3 100 100 10 0).y1 ≤ p.pos.2 ∧
        p.pos.2 + p.img.size.2 ≤ (tileBox 3 100 100 10 0).y2 :=
  c9_paste_within_tile [Img.source 50 200] 3 100 100 10 "white" none
    (by norm_num) (by norm_num) (by norm_num) (by decide) 0 (by decide)

/-- Claim C2, counterexample: with a 50x200 image (pasted as 25x100 with
centering offset dx = 37) in tile (0,0) of a padded grid, the border rectangle
is drawn at `(47, 10, 147, 110)`, not at the full tile bounds
`(10, 10, 110, 110)` the claim requires. -/
theorem c2_counterexample :
    (pictogrid [Img.source 50 200] 3 100 100 10 "white" (some "red")).map Canvas.rects
      = .ok [{ box := { x1 := 47, y1 := 10, x2 := 147, y2 := 110 },
               outline := "red" }] ∧
    ({ x1 := 47, y1 := 10, x2 := 147, y2 := 110 } : Box) ≠
      { x1 := 10, y1 := 10, x2 := 110, y2 := 110 } := by
  constructor
  · have hsz : openAndSize (Img.source 50 200) 100 100 =
        .resized (Img.source 50 200) 25 100 .antialias := by
      norm_num [openAndSize, pyInt, Img.size, min_def, Prod.mk.injEq]
    rw [pictogrid_ok _ _ _ _ _ _ _ (by norm_num)]
    simp only [Except.map, Canvas.rects, List.enum, List.enumFrom, List.map,
      processTile_eq, hsz]
    exact congrArg Except.ok (by decide)
  · decide

/-- Claim C2 as amended: with a truthy border, tile `i`'s border rectangle is a
`tile_width x tile_height` outline anchored at the image's paste offset (tile
anchor plus centering offset), not at the tile's true bounds; the two coincide
exactly when the centering offset is zero, e.g. for an exactly tile-sized
image. -/
theorem c2_border_rect_at_paste_offset (images : List Img)
    (cols tw th padding : ℤ) (bg : String) (b : Option String) (hc : 1 ≤ cols)
    (hb : pyTruthy b = true) (i : ℕ) (hi : i < images.length) :
    ∃ c, pictogrid images cols tw th padding bg b = .ok c ∧
      c.rects[i]? = some
        { box :=
            { x1 := (makeOffset (openAndSize (images.get ⟨i, hi⟩) tw th)
                ((i : ℤ) % cols) ((i : ℤ) / cols) tw th padding).1
              y1 := (makeOffset (openAndSize (images.get ⟨i, hi⟩) tw th)
                ((i : ℤ) % cols) ((i : ℤ) / cols) tw th padding).2
              x2 := (makeOffset (openAndSize (images.get ⟨i, hi⟩) tw th)
                ((i : ℤ) % cols) ((i : ℤ) / cols) tw th padding).1 + tw
              y2 := (makeOffset (openAndSize (images.get ⟨i, hi⟩) tw th)
                ((i : ℤ) % cols) ((i : ℤ) / cols) tw th padding).2 + th }
          outline := b.getD "" } := by
  have hc0 : (0 : ℤ) ≤ cols := by omega
  refine ⟨_, pictogrid_ok images cols tw th padding bg b (by omega), ?_⟩
  simp only [Canvas.rects]
  rw [List.filterMap_map]
  have hfun : (Prod.snd ∘ fun e : ℕ × Img => processTile cols tw th padding b e.1 e.2)
      = fun e : ℕ × Img =>
        some (⟨⟨(makeOffset (openAndSize e.2 tw th) (((e.1 : ℤ)).fmod cols)
                  (((e.1 : ℤ)).fdiv cols) tw th padding).1,
                (makeOffset (openAndSize e.2 tw th) (((e.1 : ℤ)).fmod cols)
                  (((e.1 : ℤ)).fdiv cols) tw th padding).2,
                (makeOffset (openAndSize e.2 tw th) (((e.1 : ℤ)).fmod cols)
                  (((e.1 : ℤ)).fdiv cols) tw th padding).1 + tw,
                (makeOffset (openAndSize e.2 tw th) (((e.1 : ℤ)).fmod cols)
                  (((e.1 : ℤ)).fdiv cols) tw th padding).2 + th⟩,
              b.getD ""⟩ : RectOp) := by
    funext e
    simp only [Function.comp_apply, processTile_eq, hb, if_true]
  rw [hfun, filterMap_some_eq_map, enum_map_getElem images _ i hi]
  simp only [Int.fmod_eq_emod _ hc0, Int.fdiv_eq_ediv _ hc0]

/-- Witness for the amended C2: a 50x200 image with border color red in the
first tile of a padded 3-column grid. -/
theorem c2_border_rect_at_paste_offset_witness :
    ∃ c, pictogrid [Img.source 50 200] 3 100 100 10 "white" (some "red") = .ok c ∧
      c.rects[0]? = some
        { box :=
            { x1 := (makeOffset (openAndSize (List.get [Img.source 50 200]
                ⟨0, by decide⟩) 100 100)
                ((0 : ℤ) % 3) ((0 : ℤ) / 3) 100 100 10).1
              y1 := (makeOffset (openAndSize (List.get [Img.source 50 200]
                ⟨0, by decide⟩) 100 100)
                ((0 : ℤ) % 3) ((0 : ℤ) / 3) 100 100 10).2
              x2 := (makeOffset (openAndSize (List.get [Img.source 50 200]
                ⟨0, by decide⟩) 100 100)
                ((0 : ℤ) % 3) ((0 : ℤ) / 3) 100 100 10).1 + 100
              y2 := (makeOffset (openAndSize (List.get [Img.source 50 200]
                ⟨0, by decide⟩) 100 100)
                ((0 : ℤ) % 3) ((0 : ℤ) / 3) 100 100 10).2 + 100 }
          outline := (some "red").getD "" } :=
  c2_border_rect_at_paste_offset [Img.source 50 200] 3 100 100 10 "white"
    (some "red") (by norm_num) (by decide) 0 (by decide)

end Pictogrid
